import Mathlib

/-!
Verification of the task-argument mini-language parser, the task
dispatcher, and the environment-linking state machine of the `dye`
deployment tool.

Strings are embedded as lists of characters (`Str`); the Python string
operations used by the source (`in`, `split(sep)`, `split(sep, 1)`,
`lower`, `isdigit`, `int`) are mirrored by the recursive functions
below.
-/

/-- Python strings, embedded as lists of characters. -/
abbrev Str := List Char

/-- `c in s` on a Python string (`str.find(c) >= 0`). -/
def hasChar (c : Char) : Str → Bool
  | [] => false
  | a :: s => if a = c then true else hasChar c s

/-- `s.split(c, 1)` when `c` occurs in `s`: the part before the first
occurrence of `c` and the part after it.  (When `c` does not occur the
source never unpacks the result; this embedding then returns
`(s, [])`.) -/
def splitFirst (c : Char) : Str → Str × Str
  | [] => ([], [])
  | a :: s =>
    if a = c then ([], s)
    else
      let p := splitFirst c s
      (a :: p.1, p.2)

/-- `s.split(c)`: split at every occurrence of `c`.  As in Python,
`splitAll c [] = [[]]` (the empty string yields one empty segment). -/
def splitAll (c : Char) : Str → List Str
  | [] => [[]]
  | a :: s =>
    if a = c then [] :: splitAll c s
    else
      match splitAll c s with
      | [] => [[a]]
      | h :: t => (a :: h) :: t

/-- ASCII lowering of one character (byte 65-90 maps to byte +32), as
Python 2 `str.lower` does per byte. -/
def lowerChar (c : Char) : Char :=
  if 65 ≤ c.toNat ∧ c.toNat ≤ 90 then Char.ofNat (c.toNat + 32) else c

/-- `s.lower()` on a byte string. -/
def pyLower (s : Str) : Str := s.map lowerChar

/-- Is `c` one of the bytes `'0'`-`'9'` (codes 48-57)? -/
def isDigitCh (c : Char) : Bool :=
  decide (48 ≤ c.toNat ∧ c.toNat ≤ 57)

/-- `s.isdigit()` on a Python 2 byte string: nonempty and every
character a decimal digit. -/
def pyIsdigit (s : Str) : Bool :=
  (decide (s ≠ [])) && s.all isDigitCh

/-- `int(s)` for an all-digit string. -/
def digitsToNat (s : Str) : Nat :=
  s.foldl (fun n c => 10 * n + (c.toNat - 48)) 0

/-- The coerced values a task argument can take: Python `True`/`False`,
an integer, or the string itself. -/
inductive Value
  | vbool (b : Bool)
  | vint (n : Nat)
  | vstr (s : Str)
  deriving DecidableEq, Repr, Inhabited

/-- `tasks.convert_argument`: case-insensitive `"true"`/`"false"` become
booleans, an all-digit string becomes an integer, anything else stays a
string. -/
def convert_argument (value : Str) : Value :=
  if pyLower value = "true".data then .vbool true
  else if pyLower value = "false".data then .vbool false
  else if pyIsdigit value then .vint (digitsToNat value)
  else .vstr value

/-- Python dict assignment `d[k] = v` on an association list: overwrite
the value if the key is present, otherwise add the binding. -/
def dictInsert (d : List (Str × Value)) (k : Str) (v : Value) :
    List (Str × Value) :=
  match d with
  | [] => [(k, v)]
  | (k', v') :: rest =>
    if k' = k then (k', v) :: rest else (k', v') :: dictInsert rest k v

/-- `tasks.convert_task_bits`: split a token `name:arg1,arg2,key=val`
into the task name, the coerced positional arguments (segments without
`=`, in order) and the keyword dictionary (segments with `=`, split on
the first `=`). -/
def convert_task_bits (task_bits : Str) : Str × List Value × List (Str × Value) :=
  if hasChar ':' task_bits = false then (task_bits, [], [])
  else
    let p := splitFirst ':' task_bits
    let args_list := splitAll ',' p.2
    let pos_args := (args_list.filter (fun a => hasChar '=' a = false)).map convert_argument
    let kwargs := args_list.filter (fun a => hasChar '=' a)
    let kwargs_dict := kwargs.foldl (fun d kwarg =>
        let q := splitFirst '=' kwarg
        dictInsert d q.1 (convert_argument q.2)) []
    (p.1, pos_args, kwargs_dict)

/-- `",".join(segs)`, the inverse direction of `splitAll ','`. -/
def joinWith (c : Char) : List Str → Str
  | [] => []
  | [s] => s
  | s :: rest => s ++ c :: joinWith c rest

/-!
### Errors

The repository's `dye/tasklib/exceptions.py` module is not under `src/`;
only its import sites are.  Modelled from the spec: the error taxonomy
of spec section 7 — a base `TasksError` (message, exit code), its
subclass `InvalidProjectError`, and `ShellCommandError` — plus the
uncaught low-level `OSError` that `os.readlink`/`os.symlink` raise.
The raise sites in `managers.py` fix which constructor each operation
uses.
-/

/-- Errors that can escape the manager operations.  `invalidProject`
and `tasksError` mirror the exceptions raised in `managers.py`;
`shellCommandError` a failing subprocess; `osError` an uncaught
operating-system error (e.g. `os.readlink` on a non-link). -/
inductive Err
  | invalidProject (msg : Str)
  | tasksError (msg : Str)
  | shellCommandError
  | osError
  deriving DecidableEq, Repr

deriving instance DecidableEq for Except

/-!
### Filesystem and manager state

The linker state machine touches, inside the Django settings
directory: `settings.py`, the canonical path `local_settings.py`, its
compiled sibling `local_settings.pyc`, the environment variant files
`local_settings.py.<env>`, and `private_settings.py`.  Symbolic links
are modelled with their target string; `os.path.exists` follows links,
so a link exists exactly when its target resolves to a present variant
file.  The `os.name == 'posix'` branch of `link_local_settings` (the
symlink branch) is the one modelled.
-/

/-- State of the canonical path `local_settings.py`: absent, a regular
file, or a symbolic link with the given target string. -/
inductive CanonState
  | absent
  | file
  | symlink (target : Str)
  deriving DecidableEq, Repr

/-- The filesystem slice the linker reads and writes. -/
structure FS where
  /-- Lines of `settings.py`; `none` when the file is absent. -/
  settings_lines : Option (List Str)
  /-- The canonical path `local_settings.py`. -/
  canon : CanonState
  /-- Does `local_settings.pyc` exist? -/
  pyc : Bool
  /-- Environments `e` for which `local_settings.py.e` exists. -/
  variants : List Str
  /-- Content of `private_settings.py` (a tag), `none` when absent. -/
  private_settings : Option Nat
  deriving DecidableEq, Repr

/-- The manager attributes the modelled operations touch. -/
structure Manager where
  /-- `self.environment`. -/
  environment : Option Str
  /-- Does the loaded `localtasks` module define `post_deploy`? -/
  has_post_deploy : Bool
  deriving DecidableEq, Repr

/-- The relative link target prefix `local_settings.py.` used by
`link_local_settings`. -/
def lsPyDot : Str := "local_settings.py.".data

/-- Does `s` start with `p`? -/
def leadsWith : Str → Str → Bool
  | [], _ => true
  | _ :: _, [] => false
  | a :: p, b :: s => if a = b then leadsWith p s else false

/-- `p in s` on a Python string where `p` is a multi-character
substring (`'local_settings' in line`). -/
def hasSub (p : Str) : Str → Bool
  | [] => p.isEmpty
  | a :: s => leadsWith p (a :: s) || hasSub p s

/-- The environment a symlink target of the form
`local_settings.py.<e>` names, if it has that form. -/
def targetVariant (t : Str) : Option Str :=
  if leadsWith lsPyDot t then some (t.drop lsPyDot.length) else none

/-- `os.path.exists` on the canonical path: follows the link, so a
symlink exists exactly when its target names a present variant file. -/
def canonExists (fs : FS) : Bool :=
  match fs.canon with
  | .absent => false
  | .file => true
  | .symlink t =>
    match targetVariant t with
    | some e => decide (e ∈ fs.variants)
    | none => false

/-- `s.split('.')[-1]`: the part after the last dot. -/
def lastDotPart (t : Str) : Str :=
  (splitAll '.' t).getLastD []

/-- Message of the `TasksError` raised by `infer_environment`. -/
def noEnvMsg : Str := "no environment set, or pre-existing".data

/-- `DjangoManager.infer_environment`: if the canonical path exists,
read its link target and return the part after the last dot (setting
`self.environment`); `os.readlink` on a regular file raises `OSError`;
otherwise raise the no-environment `TasksError`. -/
def infer_environment (m : Manager) (fs : FS) : Except Err (Manager × Str) :=
  if canonExists fs then
    match fs.canon with
    | .symlink t =>
      let env := lastDotPart t
      .ok ({ m with environment := some env }, env)
    | _ => .error .osError
  else
    .error (.tasksError noEnvMsg)

/-- `DjangoManager.check_settings_imports_local_settings`: `settings.py`
must exist and some line of it must contain `local_settings`. -/
def check_settings_imports_local_settings (fs : FS) : Except Err Unit :=
  match fs.settings_lines with
  | none => .error (.invalidProject "settings.py doesn't seem to exist".data)
  | some lines =>
    if lines.filter (fun l => hasSub "local_settings".data l) = [] then
      .error (.invalidProject "settings.py doesn't seem to import local_settings.*".data)
    else .ok ()

/-- `DjangoManager.link_local_settings environment`: check the settings
precondition, check the variant file exists, remove the canonical path
and its `.pyc` sibling when `os.path.exists` says they exist, then
create the symlink and record the environment.  Errors after the
removal step keep the partially mutated filesystem. -/
def link_local_settings (m : Manager) (fs : FS) (environment : Str) :
    (Except Err Manager) × FS :=
  match check_settings_imports_local_settings fs with
  | .error e => (.error e, fs)
  | .ok _ =>
    if ¬ (environment ∈ fs.variants) then
      (.error (.invalidProject ("Could not find file to link to".data)), fs)
    else
      let fs1 := if canonExists fs then { fs with canon := .absent } else fs
      let fs2 := if fs1.pyc then { fs1 with pyc := false } else fs1
      match fs2.canon with
      | .absent =>
        (.ok { m with environment := some environment },
         { fs2 with canon := .symlink (lsPyDot ++ environment) })
      | _ => (.error .osError, fs2)

/-!
### Orchestration

`AppManager.deploy`, `AppManager.quick_test` and the dispatch loop of
`tasks.main` compose the operations above with calls delegated to
external collaborators (git, the database manager, `manage.py`, the
`localtasks` hook).  Per the spec those collaborators are opaque; their
outcomes are supplied by a `Collab` record of oracles, and each method
call the orchestrators make is recorded in a trace of `Step`s.
-/

/-- Outcomes of the delegated collaborator calls. -/
structure Collab where
  /-- Does `.gitmodules` exist in the VCS root? -/
  gitmodules : Bool
  /-- Outcome of the `git submodule update --init` subprocess. -/
  git_ok : Bool
  /-- Outcome of `DjangoManager.update_db` (delegated to the `db`
  collaborator and `manage.py`). -/
  db_update : Except Err Unit
  /-- Outcome of the `localtasks.post_deploy` hook, when defined. -/
  hook : Except Err Unit
  /-- Outcome of `run_tests` (delegated to `manage.py test`). -/
  tests : Except Err Unit
  /-- The generated content tag for a fresh `private_settings.py`. -/
  secret : Nat

/-- One recorded method call of an orchestrated sequence. -/
inductive Step
  | git_submodules
  | private_settings
  | link (env : Str)
  | db_update
  | post_hook (env : Str)
  | tests
  deriving DecidableEq, Repr

/-- `AppManager.update_git_submodules`: when `.gitmodules` exists, run
the git subprocess and fail on a bad exit code; otherwise do nothing. -/
def update_git_submodules (c : Collab) : Except Err Unit :=
  if c.gitmodules then
    if c.git_ok then .ok () else .error .shellCommandError
  else .ok ()

/-- `DjangoManager.create_private_settings`: write a generated
`private_settings.py` only when the file does not already exist. -/
def create_private_settings (c : Collab) (fs : FS) : FS :=
  match fs.private_settings with
  | none => { fs with private_settings := some c.secret }
  | some _ => fs

/-- Python truthiness of the optional `environment` argument of
`deploy`: `None` and the empty string are falsy. -/
def truthyEnv : Option Str → Bool
  | none => false
  | some e => decide (e ≠ [])

/-- `AppManager.deploy environment`: resolve the environment (argument
if truthy, else `infer_environment`), then run update-submodules,
create-private-settings, link, update-db in order, then the
`post_deploy` hook when the `localtasks` module defines one.  The
first failing step aborts the rest; the trace records the method calls
made. -/
def deploy (c : Collab) (m : Manager) (fs : FS) (environment : Option Str) :
    (Except Err Manager) × FS × List Step :=
  let envRes : Except Err (Manager × Str) :=
    match environment with
    | some e =>
      if e ≠ [] then .ok ({ m with environment := some e }, e)
      else infer_environment m fs
    | none => infer_environment m fs
  match envRes with
  | .error e => (.error e, fs, [])
  | .ok (m1, env) =>
    match update_git_submodules c with
    | .error e => (.error e, fs, [.git_submodules])
    | .ok _ =>
      let fs1 := create_private_settings c fs
      match link_local_settings m1 fs1 env with
      | (.error e, fs2) =>
        (.error e, fs2, [.git_submodules, .private_settings, .link env])
      | (.ok m2, fs2) =>
        match c.db_update with
        | .error e =>
          (.error e, fs2,
           [.git_submodules, .private_settings, .link env, .db_update])
        | .ok _ =>
          if m2.has_post_deploy then
            match c.hook with
            | .error e =>
              (.error e, fs2,
               [.git_submodules, .private_settings, .link env, .db_update,
                .post_hook env])
            | .ok _ =>
              (.ok m2, fs2,
               [.git_submodules, .private_settings, .link env, .db_update,
                .post_hook env])
          else
            (.ok m2, fs2,
             [.git_submodules, .private_settings, .link env, .db_update])

/-- The environment name `quick_test` links for the test run. -/
def devFasttests : Str := "dev_fasttests".data

/-- `AppManager.quick_test`: remember the inferred environment, then in
a `try` block link `dev_fasttests`, update the database and run the
tests; the `finally` block always re-links the original environment.
An error from the `finally` link replaces the pending error, as in
Python; the trace records every `link_local_settings`, `update_db` and
`run_tests` call made. -/
def quick_test (c : Collab) (m : Manager) (fs : FS) :
    (Except Err Manager) × FS × List Step :=
  match infer_environment m fs with
  | .error e => (.error e, fs, [])
  | .ok (m1, original) =>
    match link_local_settings m1 fs devFasttests with
    | (.error e, fs1) =>
      match link_local_settings m1 fs1 original with
      | (.error e2, fs2) =>
        (.error e2, fs2, [.link devFasttests, .link original])
      | (.ok _, fs2) =>
        (.error e, fs2, [.link devFasttests, .link original])
    | (.ok m2, fs1) =>
      let tryRes : Except Err Unit × List Step :=
        match c.db_update with
        | .error e => (.error e, [.link devFasttests, .db_update])
        | .ok _ =>
          match c.tests with
          | .error e => (.error e, [.link devFasttests, .db_update, .tests])
          | .ok _ => (.ok (), [.link devFasttests, .db_update, .tests])
      match link_local_settings m2 fs1 original with
      | (.error e2, fs2) => (.error e2, fs2, tryRes.2 ++ [.link original])
      | (.ok m3, fs2) =>
        match tryRes.1 with
        | .error e => (.error e, fs2, tryRes.2 ++ [.link original])
        | .ok _ => (.ok m3, fs2, tryRes.2 ++ [.link original])

/-!
### Dispatch loop

The task loop of `tasks.main` (src/dye/tasks.py, lines 234-250): parse
each token, reject a name outside the manager's task registry with exit
code 2 before calling anything, execute known tasks in order, and turn
a raised `TasksError` into that error's exit code.  The execution of a
task is an opaque oracle; the list of invocations actually executed is
returned alongside the exit code (`none` models `main` falling off the
loop and returning `None`).
-/

/-- Modelled from the spec: the base `TasksError` of the missing
`dye/tasklib/exceptions.py`, carrying a user message and a process
exit code (spec section 7). -/
structure TasksFailure where
  msg : Str
  exit_code : Nat
  deriving DecidableEq, Repr

/-- A parsed task invocation: name, positional values, keyword
dictionary. -/
abbrev Invocation := Str × List Value × List (Str × Value)

/-- The dispatch loop of `tasks.main`: returns the exit code (`none`
when the loop completes) and the invocations executed, in order. -/
def run_tasks (tasks : List Str) (exec : Invocation → Except TasksFailure Unit) :
    List Str → Option Nat × List Invocation
  | [] => (none, [])
  | arg :: rest =>
    let inv := convert_task_bits arg
    if inv.1 ∈ tasks then
      match exec inv with
      | .ok _ =>
        let r := run_tasks tasks exec rest
        (r.1, inv :: r.2)
      | .error e => (some e.exit_code, [inv])
    else (some 2, [])

/-!
## Theorems

Helper lemmas about the string primitives first, then one theorem per
claim (with a closed witness where the theorem carries hypotheses).
-/

theorem hasChar_append_cons (c : Char) (xs ys : Str) :
    hasChar c (xs ++ c :: ys) = true := by
  induction xs with
  | nil => simp [hasChar]
  | cons a xs ih =>
    simp only [List.cons_append, hasChar]
    split <;> simp [ih]

theorem splitFirst_append_cons (c : Char) (xs ys : Str)
    (h : hasChar c xs = false) : splitFirst c (xs ++ c :: ys) = (xs, ys) := by
  induction xs with
  | nil => simp [splitFirst]
  | cons a xs ih =>
    simp only [hasChar] at h
    split at h
    · exact absurd h (by simp)
    · simp only [List.cons_append, splitFirst]
      rw [if_neg (by assumption)]
      simp [ih h]

theorem splitAll_ne_nil (c : Char) (s : Str) : splitAll c s ≠ [] := by
  induction s with
  | nil => simp [splitAll]
  | cons a s ih =>
    simp only [splitAll]
    split
    · simp
    · split
      · simp
      · simp

theorem splitAll_of_not_has (c : Char) (s : Str) (h : hasChar c s = false) :
    splitAll c s = [s] := by
  induction s with
  | nil => simp [splitAll]
  | cons a s ih =>
    simp only [hasChar] at h
    split at h
    · exact absurd h (by simp)
    · simp only [splitAll]
      rw [if_neg (by assumption), ih h]

theorem splitAll_append_cons (c : Char) (xs ys : Str)
    (h : hasChar c xs = false) :
    splitAll c (xs ++ c :: ys) = xs :: splitAll c ys := by
  induction xs with
  | nil => simp [splitAll]
  | cons a xs ih =>
    simp only [hasChar] at h
    split at h
    · exact absurd h (by simp)
    · simp only [List.cons_append, splitAll]
      rw [if_neg (by assumption)]
      simp only [List.append_eq] at ih ⊢
      rw [ih h]

theorem splitAll_join (c : Char) (segs : List Str)
    (hne : segs ≠ [])
    (h : ∀ s ∈ segs, hasChar c s = false) :
    splitAll c (joinWith c segs) = segs := by
  induction segs with
  | nil => exact absurd rfl hne
  | cons s rest ih =>
    cases rest with
    | nil =>
      simp only [joinWith]
      exact splitAll_of_not_has c s (h s (by simp))
    | cons t rest' =>
      have hs : hasChar c s = false := h s (by simp)
      simp only [joinWith]
      rw [splitAll_append_cons c s _ hs,
          ih (by simp) (fun u hu => h u (by simp [hu]))]

theorem lowerChar_of_digit (ch : Char) (h : isDigitCh ch = true) :
    lowerChar ch = ch := by
  unfold lowerChar
  rw [if_neg]
  intro ⟨h1, h2⟩
  simp only [isDigitCh, decide_eq_true_eq] at h
  omega

theorem pyLower_of_isdigit (s : Str) (h : pyIsdigit s = true) :
    pyLower s = s := by
  unfold pyIsdigit at h
  have hall : ∀ ch ∈ s, isDigitCh ch = true := by
    intro ch hch
    have := (Bool.and_eq_true _ _).mp h
    exact List.all_eq_true.mp this.2 ch hch
  unfold pyLower
  calc s.map lowerChar = s.map id := by
        apply List.map_congr_left
        intro ch hch
        simp [lowerChar_of_digit ch (hall ch hch)]
    _ = s := List.map_id s

theorem dictInsert_fresh (d : List (Str × Value)) (k : Str) (v : Value)
    (h : ∀ p ∈ d, p.1 ≠ k) : dictInsert d k v = d ++ [(k, v)] := by
  induction d with
  | nil => simp [dictInsert]
  | cons p rest ih =>
    obtain ⟨k', v'⟩ := p
    simp only [dictInsert]
    rw [if_neg (h (k', v') (by simp))]
    simp only [List.cons_append, List.cons.injEq, true_and]
    exact ih (fun q hq => h q (by simp [hq]))

theorem foldl_dictInsert_of_nodup (l : List (Str × Value))
    (h : (l.map Prod.fst).Nodup) :
    l.foldl (fun d p => dictInsert d p.1 p.2) [] = l := by
  suffices hgen : ∀ (d : List (Str × Value)),
      (∀ p ∈ d, ∀ q ∈ l, p.1 ≠ q.1) →
      l.foldl (fun d p => dictInsert d p.1 p.2) d = d ++ l by
    simpa using hgen [] (by simp)
  induction l with
  | nil => intro d _; simp
  | cons p rest ih =>
    intro d hd
    simp only [List.map_cons, List.nodup_cons] at h
    simp only [List.foldl_cons]
    rw [show dictInsert d p.1 p.2 = d ++ [(p.1, p.2)] from
          dictInsert_fresh d p.1 p.2 (fun q hq => hd q hq p (by simp)),
        ih h.2]
    · simp
    · intro q hq r hr
      rcases List.mem_append.mp hq with hq1 | hq1
      · exact hd q hq1 r (by simp [hr])
      · simp only [List.mem_singleton] at hq1
        subst hq1
        intro heq
        exact h.1 (by rw [heq]; exact List.mem_map_of_mem Prod.fst hr)

/-- C8: `convert_argument` maps case-insensitive `"true"`/`"false"` to
the booleans, an all-digit string to its integer, and leaves every
other string unchanged; `"FALSE"` gives `False`, `"15"` gives 15 and
`"abc15"` stays a string (whole-string digit check). -/
theorem claim_C8 :
    (∀ s : Str, pyLower s = "true".data → convert_argument s = .vbool true) ∧
    (∀ s : Str, pyLower s = "false".data → convert_argument s = .vbool false) ∧
    (∀ s : Str, pyIsdigit s = true → convert_argument s = .vint (digitsToNat s)) ∧
    (∀ s : Str, pyLower s ≠ "true".data → pyLower s ≠ "false".data →
       pyIsdigit s = false → convert_argument s = .vstr s) ∧
    convert_argument "FALSE".data = .vbool false ∧
    convert_argument "15".data = .vint 15 ∧
    convert_argument "abc15".data = .vstr "abc15".data := by
  refine ⟨?_, ?_, ?_, ?_, by decide, by decide, by decide⟩
  · intro s h
    unfold convert_argument
    rw [if_pos h]
  · intro s h
    unfold convert_argument
    rw [h, if_neg (by decide), if_pos rfl]
  · intro s hd
    have h1 : pyLower s ≠ "true".data := by
      rw [pyLower_of_isdigit s hd]
      intro he
      rw [he] at hd
      exact absurd hd (by decide)
    have h2 : pyLower s ≠ "false".data := by
      rw [pyLower_of_isdigit s hd]
      intro he
      rw [he] at hd
      exact absurd hd (by decide)
    unfold convert_argument
    rw [if_neg h1, if_neg h2, if_pos hd]
  · intro s h1 h2 h3
    unfold convert_argument
    rw [if_neg h1, if_neg h2, if_neg (by simp [h3])]

/-- Witness for C8 at the concrete inputs `"TRUE"` and `"7x"`. -/
theorem claim_C8_witness :
    convert_argument "TRUE".data = .vbool true ∧
    convert_argument "7x".data = .vstr "7x".data :=
  ⟨claim_C8.1 "TRUE".data (by decide),
   claim_C8.2.2.2.1 "7x".data (by decide) (by decide) (by decide)⟩

/-- C9: a token with no `:` parses to the whole token as name, no
positional arguments and no keyword arguments. -/
theorem claim_C9 : ∀ s : Str, hasChar ':' s = false →
    convert_task_bits s = (s, [], []) := by
  intro s h
  unfold convert_task_bits
  rw [if_pos h]

/-- Witness for C9 at the concrete token `"deploy"`. -/
theorem claim_C9_witness : convert_task_bits "deploy".data = ("deploy".data, [], []) :=
  claim_C9 "deploy".data (by decide)

/-- C7: parsing `name:arg1,...,argN` splits on the first `:` and then
on `,`; each segment with `=` contributes exactly one `(key, value)`
keyword pair (split on the first `=`), the other segments become
positional arguments in their original order, and an empty segment
yields an empty-string positional value rather than being dropped.
The second conjunct shows the keyword dictionary keeps exactly one
entry per pair when the keys are distinct. -/
theorem claim_C7 :
    (∀ (name : Str) (segs : List Str),
        hasChar ':' name = false →
        (∀ s ∈ segs, hasChar ',' s = false) →
        segs ≠ [] →
        convert_task_bits (name ++ ':' :: joinWith ',' segs) =
          (name,
           (segs.filter (fun a => hasChar '=' a = false)).map convert_argument,
           ((segs.filter (fun a => hasChar '=' a)).map
               (fun s => ((splitFirst '=' s).1, convert_argument (splitFirst '=' s).2))).foldl
             (fun d p => dictInsert d p.1 p.2) [])) ∧
    (∀ l : List (Str × Value), (l.map Prod.fst).Nodup →
        l.foldl (fun d p => dictInsert d p.1 p.2) [] = l) ∧
    (convert_task_bits "t:a,".data).2.1 = [.vstr "a".data, .vstr []] := by
  refine ⟨?_, foldl_dictInsert_of_nodup, by decide⟩
  intro name segs h1 h2 h3
  have htok : hasChar ':' (name ++ ':' :: joinWith ',' segs) = true :=
    hasChar_append_cons ':' name _
  unfold convert_task_bits
  rw [if_neg (by simp [htok])]
  rw [splitFirst_append_cons ':' name _ h1]
  simp only
  rw [splitAll_join ',' segs h3 h2, List.foldl_map]

theorem getLastD_irrel {α : Type} (l : List α) (h : l ≠ []) (a b : α) :
    l.getLastD a = l.getLastD b := by
  cases l with
  | nil => exact absurd rfl h
  | cons x t => rw [List.getLastD_cons, List.getLastD_cons]

theorem splitAll_length_two_of_has (c : Char) (s : Str)
    (h : hasChar c s = true) : 2 ≤ (splitAll c s).length := by
  induction s with
  | nil => simp [hasChar] at h
  | cons a s ih =>
    simp only [hasChar] at h
    simp only [splitAll]
    by_cases hac : a = c
    · rw [if_pos hac]
      have := List.length_pos.mpr (splitAll_ne_nil c s)
      simp only [List.length_cons]
      omega
    · rw [if_neg hac]
      rw [if_neg hac] at h
      have h2 := ih h
      cases hsp : splitAll c s with
      | nil => exact absurd hsp (splitAll_ne_nil c s)
      | cons hh tt =>
        rw [hsp] at h2
        simpa using h2

theorem getLastD_splitAll_append (c : Char) (xs ys : Str) :
    (splitAll c (xs ++ c :: ys)).getLastD [] = (splitAll c ys).getLastD [] := by
  induction xs with
  | nil =>
    rw [List.nil_append,
        show splitAll c (c :: ys) = [] :: splitAll c ys from by simp [splitAll],
        List.getLastD_cons]
  | cons a xs ih =>
    by_cases hac : a = c
    · subst hac
      rw [List.cons_append,
          show splitAll a (a :: (xs ++ a :: ys)) = [] :: splitAll a (xs ++ a :: ys)
            from by simp [splitAll],
          List.getLastD_cons]
      exact ih
    · have hlen := splitAll_length_two_of_has c (xs ++ c :: ys)
        (hasChar_append_cons c xs ys)
      cases hsp : splitAll c (xs ++ c :: ys) with
      | nil => exact absurd hsp (splitAll_ne_nil c _)
      | cons hh tt =>
        rw [hsp] at hlen
        have htt : tt ≠ [] := by
          intro h0
          rw [h0] at hlen
          simp only [List.length_cons, List.length_nil] at hlen
          omega
        rw [List.cons_append,
            show splitAll c (a :: (xs ++ c :: ys)) = (a :: hh) :: tt from by
              simp only [splitAll]
              rw [if_neg hac]
              rw [hsp],
            List.getLastD_cons]
        rw [hsp, List.getLastD_cons] at ih
        exact (getLastD_irrel tt htt (a :: hh) hh).trans ih

theorem lastDotPart_append (ys : Str) (hy : hasChar '.' ys = false) (xs : Str) :
    lastDotPart (xs ++ '.' :: ys) = ys := by
  unfold lastDotPart
  rw [getLastD_splitAll_append, splitAll_of_not_has '.' ys hy]
  rfl

theorem leadsWith_append (p s : Str) : leadsWith p (p ++ s) = true := by
  induction p with
  | nil => rfl
  | cons a p ih => simp [leadsWith, ih]

theorem targetVariant_append (e : Str) :
    targetVariant (lsPyDot ++ e) = some e := by
  unfold targetVariant
  rw [if_pos (leadsWith_append lsPyDot e), List.drop_left]

theorem link_eq_ok_iff (m : Manager) (fs : FS) (E : Str) (m1 : Manager) (fs1 : FS) :
    link_local_settings m fs E = (.ok m1, fs1) ↔
      (check_settings_imports_local_settings fs = .ok () ∧
       E ∈ fs.variants ∧
       (canonExists fs = true ∨ fs.canon = .absent) ∧
       m1 = { m with environment := some E } ∧
       fs1 = { fs with canon := .symlink (lsPyDot ++ E), pyc := false }) := by
  obtain ⟨sl, canon, pyc, vars, priv⟩ := fs
  cases hc : check_settings_imports_local_settings ⟨sl, canon, pyc, vars, priv⟩ with
  | error e =>
    simp only [link_local_settings, hc]
    constructor
    · intro h
      exact absurd h (by simp)
    · intro ⟨h1, _⟩
      exact absurd h1 (by simp)
  | ok u =>
    obtain ⟨⟩ := u
    by_cases hv : E ∈ vars
    · simp only [link_local_settings, hc]
      rw [if_neg (not_not_intro hv)]
      cases canon with
      | absent =>
        cases pyc <;>
          simp_all [canonExists] <;>
          constructor <;> (intro h; exact ⟨h.1.symm, h.2.symm⟩)
      | file =>
        cases pyc <;>
          simp_all [canonExists] <;>
          constructor <;> (intro h; exact ⟨h.1.symm, h.2.symm⟩)
      | symlink t =>
        cases h2 : targetVariant t with
        | none =>
          cases pyc <;> simp_all [canonExists]
        | some e2 =>
          by_cases he2 : e2 ∈ vars
          · cases pyc <;>
              simp_all [canonExists] <;>
              constructor <;> (intro h; exact ⟨h.1.symm, h.2.symm⟩)
          · cases pyc <;> simp_all [canonExists]
    · simp only [link_local_settings, hc]
      rw [if_pos (by simpa using hv)]
      constructor
      · intro h
        exact absurd h (by simp)
      · intro ⟨_, h2, _⟩
        exact absurd h2 hv

theorem check_cases (fs : FS) :
    (∃ msg, check_settings_imports_local_settings fs = .error (.invalidProject msg)) ∨
    check_settings_imports_local_settings fs = .ok () := by
  unfold check_settings_imports_local_settings
  cases fs.settings_lines with
  | none => exact Or.inl ⟨_, rfl⟩
  | some lines =>
    dsimp only
    split
    · exact Or.inl ⟨_, rfl⟩
    · exact Or.inr rfl

theorem link_check_error (m : Manager) (fs : FS) (E : Str) (e : Err)
    (hc : check_settings_imports_local_settings fs = .error e) :
    link_local_settings m fs E = (.error e, fs) := by
  unfold link_local_settings
  rw [hc]

theorem link_no_variant (m : Manager) (fs : FS) (E : Str)
    (hc : check_settings_imports_local_settings fs = .ok ())
    (hv : E ∉ fs.variants) :
    link_local_settings m fs E =
      (.error (.invalidProject ("Could not find file to link to".data)), fs) := by
  unfold link_local_settings
  rw [hc]
  dsimp only
  rw [if_pos hv]

/-- C1: whenever `link_local_settings F` succeeds, the final state is
determined by `F` alone: the canonical path is a link to
`local_settings.py.F` that resolves (the variant exists), the compiled
`.pyc` sibling is absent, and the manager's environment is `F`;
moreover linking the same environment twice in a row reproduces the
same final state and does not error. -/
theorem claim_C1 :
    (∀ (m : Manager) (fs : FS) (F : Str) (m1 : Manager) (fs1 : FS),
        link_local_settings m fs F = (.ok m1, fs1) →
        fs1.canon = .symlink (lsPyDot ++ F) ∧
        canonExists fs1 = true ∧
        fs1.pyc = false ∧
        m1.environment = some F) ∧
    (∀ (m : Manager) (fs : FS) (E : Str) (m1 : Manager) (fs1 : FS),
        link_local_settings m fs E = (.ok m1, fs1) →
        link_local_settings m1 fs1 E = (.ok m1, fs1)) := by
  constructor
  · intro m fs F m1 fs1 h
    obtain ⟨hchk, hv, hcan, hm1, hfs1⟩ := (link_eq_ok_iff m fs F m1 fs1).mp h
    subst hm1 hfs1
    refine ⟨rfl, ?_, rfl, rfl⟩
    simp [canonExists, targetVariant_append, hv]
  · intro m fs E m1 fs1 h
    obtain ⟨hchk, hv, hcan, hm1, hfs1⟩ := (link_eq_ok_iff m fs E m1 fs1).mp h
    rw [link_eq_ok_iff]
    refine ⟨?_, ?_, ?_, ?_, ?_⟩
    · rw [hfs1]
      exact hchk
    · rw [hfs1]
      exact hv
    · left
      subst hfs1
      simp [canonExists, targetVariant_append, hv]
    · subst hm1
      rfl
    · subst hfs1
      rfl

/-- Witness for C1: linking `"staging"` on a fresh valid project. -/
theorem claim_C1_witness :
    (⟨some ["import local_settings".data], CanonState.symlink ("local_settings.py.staging".data),
       false, ["staging".data], none⟩ : FS).canon = .symlink (lsPyDot ++ "staging".data) ∧
    canonExists ⟨some ["import local_settings".data],
       .symlink ("local_settings.py.staging".data), false, ["staging".data], none⟩ = true ∧
    (⟨some ["import local_settings".data], CanonState.symlink ("local_settings.py.staging".data),
       false, ["staging".data], none⟩ : FS).pyc = false ∧
    (⟨some "staging".data, false⟩ : Manager).environment = some "staging".data :=
  claim_C1.1 ⟨none, false⟩
    ⟨some ["import local_settings".data], .absent, true, ["staging".data], none⟩
    "staging".data ⟨some "staging".data, false⟩
    ⟨some ["import local_settings".data], .symlink ("local_settings.py.staging".data),
      false, ["staging".data], none⟩
    (by decide)

/-- C2: when `settings.py` is absent, or none of its lines mentions
`local_settings`, or the variant file for `E` is absent,
`link_local_settings E` fails with an `InvalidProjectError` and leaves
the filesystem exactly as it was. -/
theorem claim_C2 : ∀ (m : Manager) (fs : FS) (E : Str),
    (fs.settings_lines = none ∨
     (∃ lines, fs.settings_lines = some lines ∧
        lines.filter (fun l => hasSub "local_settings".data l) = []) ∨
     E ∉ fs.variants) →
    (∃ msg, (link_local_settings m fs E).1 = .error (.invalidProject msg)) ∧
    (link_local_settings m fs E).2 = fs := by
  intro m fs E h
  rcases h with h | ⟨lines, hsl, hfil⟩ | hv
  · have hc : check_settings_imports_local_settings fs =
        .error (.invalidProject "settings.py doesn't seem to exist".data) := by
      unfold check_settings_imports_local_settings
      rw [h]
    rw [link_check_error m fs E _ hc]
    exact ⟨⟨_, rfl⟩, rfl⟩
  · have hc : check_settings_imports_local_settings fs =
        .error (.invalidProject
          "settings.py doesn't seem to import local_settings.*".data) := by
      unfold check_settings_imports_local_settings
      rw [hsl]
      dsimp only
      rw [if_pos hfil]
    rw [link_check_error m fs E _ hc]
    exact ⟨⟨_, rfl⟩, rfl⟩
  · rcases check_cases fs with ⟨msg, hc⟩ | hc
    · rw [link_check_error m fs E _ hc]
      exact ⟨⟨msg, rfl⟩, rfl⟩
    · rw [link_no_variant m fs E hc hv]
      exact ⟨⟨_, rfl⟩, rfl⟩

/-- Witness for C2: linking on a project with no `settings.py`. -/
theorem claim_C2_witness :
    (∃ msg, (link_local_settings ⟨none, false⟩ ⟨none, .absent, false, [], none⟩
        "dev".data).1 = .error (.invalidProject msg)) ∧
    (link_local_settings ⟨none, false⟩ ⟨none, .absent, false, [], none⟩
        "dev".data).2 = ⟨none, .absent, false, [], none⟩ :=
  claim_C2 ⟨none, false⟩ ⟨none, .absent, false, [], none⟩ "dev".data (Or.inl rfl)

/-- C4 (amended): for every environment name `E` that contains no dot,
a successful `link_local_settings E` followed by `infer_environment`
returns `E`; the query extracts the part of the link target after the
last dot, so an environment name containing a dot round-trips to its
final dot-component only. -/
theorem claim_C4 : ∀ (m : Manager) (fs : FS) (E : Str) (m1 : Manager) (fs1 : FS),
    hasChar '.' E = false →
    link_local_settings m fs E = (.ok m1, fs1) →
    infer_environment m1 fs1 = .ok (m1, E) := by
  intro m fs E m1 fs1 hdot h
  obtain ⟨hchk, hv, hcan, hm1, hfs1⟩ := (link_eq_ok_iff m fs E m1 fs1).mp h
  subst hm1 hfs1
  have hl : lastDotPart (lsPyDot ++ E) = E := by
    have h0 : lsPyDot = "local_settings.py".data ++ ['.'] := by decide
    rw [h0, List.append_assoc, List.singleton_append]
    exact lastDotPart_append E hdot "local_settings.py".data
  unfold infer_environment
  rw [if_pos (by simp [canonExists, targetVariant_append, hv])]
  dsimp only
  rw [hl]

/-- Witness for C4 at the environment `"staging"`. -/
theorem claim_C4_witness :
    infer_environment ⟨some "staging".data, false⟩
      ⟨some ["import local_settings".data],
        .symlink ("local_settings.py.staging".data), false, ["staging".data], none⟩ =
      .ok (⟨some "staging".data, false⟩, "staging".data) :=
  claim_C4 ⟨none, false⟩
    ⟨some ["import local_settings".data], .absent, false, ["staging".data], none⟩
    "staging".data ⟨some "staging".data, false⟩
    ⟨some ["import local_settings".data],
      .symlink ("local_settings.py.staging".data), false, ["staging".data], none⟩
    (by decide) (by decide)

/-- Counterexample for C4 as stated: for the environment name `"a.b"`
(whose variant file exists and whose link succeeds), the subsequent
query returns `"b"`, not `"a.b"`: the round-trip fails for environment
names containing a dot. -/
theorem claim_C4_counterexample :
    (link_local_settings ⟨none, false⟩
        ⟨some ["import local_settings".data], .absent, false, ["a.b".data], none⟩
        "a.b".data).1 = .ok ⟨some "a.b".data, false⟩ ∧
    infer_environment ⟨some "a.b".data, false⟩
        (link_local_settings ⟨none, false⟩
          ⟨some ["import local_settings".data], .absent, false, ["a.b".data], none⟩
          "a.b".data).2 =
      .ok (⟨some "b".data, false⟩, "b".data) ∧
    ("b".data : Str) ≠ "a.b".data := by
  refine ⟨by decide, by decide, by decide⟩

/-- C5 (amended): when the canonical path does not exist (including a
dangling link), `infer_environment` raises the no-environment-set
`TasksError`; but when the path exists as a regular file rather than a
link, the `os.readlink` call fails with an uncaught `OSError` instead
of that error. -/
theorem claim_C5 : ∀ (m : Manager) (fs : FS),
    (canonExists fs = false →
       infer_environment m fs = .error (.tasksError noEnvMsg)) ∧
    (fs.canon = .file → infer_environment m fs = .error .osError) := by
  intro m fs
  constructor
  · intro h
    unfold infer_environment
    rw [if_neg (by simp [h])]
  · intro h
    have hce : canonExists fs = true := by
      unfold canonExists
      rw [h]
    unfold infer_environment
    rw [if_pos hce, h]

/-- Witness for C5: an absent canonical path raises the no-environment
error. -/
theorem claim_C5_witness :
    infer_environment ⟨none, false⟩ ⟨none, .absent, false, [], none⟩ =
      .error (.tasksError noEnvMsg) :=
  (claim_C5 ⟨none, false⟩ ⟨none, .absent, false, [], none⟩).1 (by decide)

/-- Counterexample for C5 as stated: when the canonical path exists but
is a regular file, the code raises an uncaught `OSError` from
`os.readlink`, not the no-environment-set error the claim requires. -/
theorem claim_C5_counterexample :
    infer_environment ⟨none, false⟩ ⟨none, .file, false, [], none⟩ =
      .error .osError ∧
    Err.osError ≠ .tasksError noEnvMsg := by
  refine ⟨by decide, by decide⟩

/-- Witness for C7: the end-to-end token `deploy:environment=staging`. -/
theorem claim_C7_witness :
    convert_task_bits ("deploy".data ++ ':' :: joinWith ',' ["environment=staging".data]) =
      ("deploy".data, [], [("environment".data, Value.vstr "staging".data)]) := by
  have h := claim_C7.1 "deploy".data ["environment=staging".data]
    (by decide) (by decide) (by decide)
  exact h.trans (by decide)

/-- C3: a task token whose name is not in the manager's registry makes
the dispatch loop return exit code 2, execute nothing for that token,
and process none of the following tokens; the invocations executed are
exactly those of the preceding, registered, successful tokens. -/
theorem claim_C3 : ∀ (tasks : List Str) (exec : Invocation → Except TasksFailure Unit)
    (pre : List Str) (bad : Str) (post : List Str),
    (∀ t ∈ pre, (convert_task_bits t).1 ∈ tasks ∧ exec (convert_task_bits t) = .ok ()) →
    (convert_task_bits bad).1 ∉ tasks →
    run_tasks tasks exec (pre ++ bad :: post) = (some 2, pre.map convert_task_bits) := by
  intro tasks exec pre bad post hpre hbad
  induction pre with
  | nil =>
    simp only [List.nil_append, run_tasks]
    rw [if_neg hbad]
    simp
  | cons t rest ih =>
    obtain ⟨hmem, hok⟩ := hpre t (by simp)
    simp only [List.cons_append, run_tasks]
    rw [if_pos hmem, hok]
    dsimp only
    simp only [List.append_eq]
    rw [ih (fun u hu => hpre u (by simp [hu]))]
    simp

/-- Witness for C3: a known task, then an unknown one, then another
token that must not be processed. -/
theorem claim_C3_witness :
    run_tasks ["deploy".data] (fun _ => .ok ())
      ["deploy".data, "bogus".data, "next".data] =
      (some 2, [("deploy".data, [], [])]) := by
  have h := claim_C3 ["deploy".data] (fun _ => .ok ()) ["deploy".data]
    "bogus".data ["next".data]
    (by
      intro t ht
      rw [List.mem_singleton] at ht
      subst ht
      exact ⟨by decide, rfl⟩)
    (by decide)
  exact h.trans rfl

theorem link_private (m : Manager) (fs : FS) (E : Str) :
    ((link_local_settings m fs E).2).private_settings = fs.private_settings := by
  obtain ⟨sl, canon, pyc, vars, priv⟩ := fs
  simp only [link_local_settings]
  cases hc : check_settings_imports_local_settings ⟨sl, canon, pyc, vars, priv⟩ with
  | error e => rfl
  | ok u =>
    split
    · rfl
    · cases canon with
      | absent => cases pyc <;> simp [canonExists] <;> (try (split <;> rfl))
      | file => cases pyc <;> simp [canonExists] <;> (try (split <;> rfl))
      | symlink t =>
        cases h2 : targetVariant t with
        | none => cases pyc <;> simp_all [canonExists] <;> (try (split <;> rfl))
        | some e2 =>
          by_cases he2 : e2 ∈ vars <;> cases pyc <;> simp_all [canonExists] <;>
            (try (split <;> rfl))

theorem create_private_keeps (c : Collab) (fs : FS) (x : Nat)
    (h : fs.private_settings = some x) : create_private_settings c fs = fs := by
  unfold create_private_settings
  rw [h]

theorem deploy_fs_cases (c : Collab) (m : Manager) (fs : FS) (envArg : Option Str) :
    (deploy c m fs envArg).2.1 = fs ∨
    ∃ m1 env, (deploy c m fs envArg).2.1 =
      (link_local_settings m1 (create_private_settings c fs) env).2 := by
  suffices hgen : ∀ (res : Except Err (Manager × Str)),
      (match res with
        | .error e => ((.error e : Except Err Manager), fs, ([] : List Step))
        | .ok (m1, env) =>
          match update_git_submodules c with
          | .error e => (.error e, fs, [.git_submodules])
          | .ok _ =>
            match link_local_settings m1 (create_private_settings c fs) env with
            | (.error e, fs2) =>
              (.error e, fs2, [.git_submodules, .private_settings, .link env])
            | (.ok m2, fs2) =>
              match c.db_update with
              | .error e =>
                (.error e, fs2,
                 [.git_submodules, .private_settings, .link env, .db_update])
              | .ok _ =>
                if m2.has_post_deploy then
                  match c.hook with
                  | .error e =>
                    (.error e, fs2,
                     [.git_submodules, .private_settings, .link env, .db_update,
                      .post_hook env])
                  | .ok _ =>
                    (.ok m2, fs2,
                     [.git_submodules, .private_settings, .link env, .db_update,
                      .post_hook env])
                else
                  (.ok m2, fs2,
                   [.git_submodules, .private_settings, .link env, .db_update])).2.1 = fs ∨
      ∃ m1 env, (match res with
        | .error e => ((.error e : Except Err Manager), fs, ([] : List Step))
        | .ok (m1, env) =>
          match update_git_submodules c with
          | .error e => (.error e, fs, [.git_submodules])
          | .ok _ =>
            match link_local_settings m1 (create_private_settings c fs) env with
            | (.error e, fs2) =>
              (.error e, fs2, [.git_submodules, .private_settings, .link env])
            | (.ok m2, fs2) =>
              match c.db_update with
              | .error e =>
                (.error e, fs2,
                 [.git_submodules, .private_settings, .link env, .db_update])
              | .ok _ =>
                if m2.has_post_deploy then
                  match c.hook with
                  | .error e =>
                    (.error e, fs2,
                     [.git_submodules, .private_settings, .link env, .db_update,
                      .post_hook env])
                  | .ok _ =>
                    (.ok m2, fs2,
                     [.git_submodules, .private_settings, .link env, .db_update,
                      .post_hook env])
                else
                  (.ok m2, fs2,
                   [.git_submodules, .private_settings, .link env, .db_update])).2.1 =
        (link_local_settings m1 (create_private_settings c fs) env).2 by
    unfold deploy
    exact hgen _
  intro res
  cases res with
  | error e => exact Or.inl rfl
  | ok p =>
    obtain ⟨m1, env⟩ := p
    dsimp only
    cases hg : update_git_submodules c with
    | error e => exact Or.inl rfl
    | ok u =>
      dsimp only
      cases hl : link_local_settings m1 (create_private_settings c fs) env with
      | mk r fsx =>
        cases r with
        | error e =>
          right
          exact ⟨m1, env, by rw [hl]⟩
        | ok m2 =>
          dsimp only
          cases hd : c.db_update with
          | error e =>
            right
            exact ⟨m1, env, by rw [hl]⟩
          | ok u2 =>
            dsimp only
            by_cases hp : m2.has_post_deploy = true
            · rw [if_pos hp]
              cases hh : c.hook with
              | error e => exact Or.inr ⟨m1, env, by rw [hl]⟩
              | ok u3 => exact Or.inr ⟨m1, env, by rw [hl]⟩
            · rw [if_neg hp]
              exact Or.inr ⟨m1, env, by rw [hl]⟩

/-- C6: `deploy` with no environment supplied first infers the
environment and propagates the inference error with no step run;
on success it performs exactly update-submodules, create private
settings, link, update database, then the `post_deploy` hook when (and
only when) one is registered, with the resolved environment; creating
private settings never overwrites an existing file; and a failing step
aborts the remaining steps, surfacing that step's error unchanged. -/
theorem claim_C6 : ∀ (c : Collab) (m : Manager) (fs : FS),
    (∀ e, infer_environment m fs = .error e →
        deploy c m fs none = (.error e, fs, [])) ∧
    (∀ m2 fs2 tr, deploy c m fs none = (.ok m2, fs2, tr) →
        ∃ m1 env, infer_environment m fs = .ok (m1, env) ∧
          tr = [.git_submodules, .private_settings, .link env, .db_update] ++
              (if m2.has_post_deploy then [.post_hook env] else [])) ∧
    (∀ (envArg : Option Str) (x : Nat), fs.private_settings = some x →
        (deploy c m fs envArg).2.1.private_settings = some x) ∧
    (∀ m1 env e fs2 tr, infer_environment m fs = .ok (m1, env) →
        deploy c m fs none = (.error e, fs2, tr) →
        (tr = [.git_submodules] ∧ fs2 = fs ∧ update_git_submodules c = .error e) ∨
        (tr = [.git_submodules, .private_settings, .link env] ∧
          link_local_settings m1 (create_private_settings c fs) env = (.error e, fs2)) ∨
        (tr = [.git_submodules, .private_settings, .link env, .db_update] ∧
          c.db_update = .error e) ∨
        (tr = [.git_submodules, .private_settings, .link env, .db_update,
               .post_hook env] ∧
          c.hook = .error e)) := by
  intro c m fs
  refine ⟨?_, ?_, ?_, ?_⟩
  · intro e hi
    unfold deploy
    dsimp only
    rw [hi]
  · intro m2 fs2 tr h
    unfold deploy at h
    dsimp only at h
    cases hi : infer_environment m fs with
    | error e =>
      rw [hi] at h
      simp at h
    | ok p =>
      obtain ⟨m1, env⟩ := p
      rw [hi] at h
      dsimp only at h
      cases hg : update_git_submodules c with
      | error e =>
        rw [hg] at h
        simp at h
      | ok u =>
        obtain ⟨⟩ := u
        rw [hg] at h
        dsimp only at h
        cases hl : link_local_settings m1 (create_private_settings c fs) env with
        | mk r fsx =>
          cases r with
          | error e =>
            rw [hl] at h
            simp at h
          | ok m2x =>
            rw [hl] at h
            dsimp only at h
            cases hd : c.db_update with
            | error e =>
              rw [hd] at h
              simp at h
            | ok u2 =>
              obtain ⟨⟩ := u2
              rw [hd] at h
              dsimp only at h
              by_cases hp : m2x.has_post_deploy = true
              · rw [if_pos hp] at h
                cases hh : c.hook with
                | error e =>
                  rw [hh] at h
                  simp at h
                | ok u3 =>
                  obtain ⟨⟩ := u3
                  rw [hh] at h
                  simp only [Prod.mk.injEq, Except.ok.injEq] at h
                  obtain ⟨hm, hfs, htr⟩ := h
                  subst hm hfs
                  exact ⟨m1, env, rfl, by rw [← htr, if_pos hp]; rfl⟩
              · rw [if_neg hp] at h
                simp only [Prod.mk.injEq, Except.ok.injEq] at h
                obtain ⟨hm, hfs, htr⟩ := h
                subst hm hfs
                exact ⟨m1, env, rfl, by rw [← htr, if_neg hp]; rfl⟩
  · intro envArg x hx
    rcases deploy_fs_cases c m fs envArg with h | ⟨m1, env, h⟩
    · rw [h]
      exact hx
    · rw [h, link_private, create_private_keeps c fs x hx]
      exact hx
  · intro m1 env e fs2 tr hi h
    unfold deploy at h
    dsimp only at h
    rw [hi] at h
    dsimp only at h
    cases hg : update_git_submodules c with
    | error eg =>
      rw [hg] at h
      simp only [Prod.mk.injEq, Except.error.injEq] at h
      obtain ⟨he, hfs, htr⟩ := h
      subst he hfs
      exact Or.inl ⟨htr.symm, rfl, rfl⟩
    | ok u =>
      obtain ⟨⟩ := u
      rw [hg] at h
      dsimp only at h
      cases hl : link_local_settings m1 (create_private_settings c fs) env with
      | mk r fsx =>
        cases r with
        | error el =>
          rw [hl] at h
          simp only [Prod.mk.injEq, Except.error.injEq] at h
          obtain ⟨he, hfs, htr⟩ := h
          subst he hfs
          exact Or.inr (Or.inl ⟨htr.symm, rfl⟩)
        | ok m2x =>
          rw [hl] at h
          dsimp only at h
          cases hd : c.db_update with
          | error ed =>
            rw [hd] at h
            simp only [Prod.mk.injEq, Except.error.injEq] at h
            obtain ⟨he, hfs, htr⟩ := h
            subst he hfs
            exact Or.inr (Or.inr (Or.inl ⟨htr.symm, rfl⟩))
          | ok u2 =>
            obtain ⟨⟩ := u2
            rw [hd] at h
            dsimp only at h
            by_cases hp : m2x.has_post_deploy = true
            · rw [if_pos hp] at h
              cases hh : c.hook with
              | error eh =>
                rw [hh] at h
                simp only [Prod.mk.injEq, Except.error.injEq] at h
                obtain ⟨he, hfs, htr⟩ := h
                subst he hfs
                exact Or.inr (Or.inr (Or.inr ⟨htr.symm, rfl⟩))
              | ok u3 =>
                rw [hh] at h
                simp at h
            · rw [if_neg hp] at h
              simp at h

/-- Witness for C6: deploying with no environment on a project with no
link propagates the no-environment error and runs no step. -/
theorem claim_C6_witness :
    deploy ⟨false, true, .ok (), .ok (), .ok (), 0⟩ ⟨none, false⟩
        ⟨none, .absent, false, [], none⟩ none =
      (.error (.tasksError noEnvMsg), ⟨none, .absent, false, [], none⟩, []) :=
  (claim_C6 ⟨false, true, .ok (), .ok (), .ok (), 0⟩ ⟨none, false⟩
      ⟨none, .absent, false, [], none⟩).1 (.tasksError noEnvMsg) (by decide)

/-- C10: whenever `infer_environment` reports environment `E` at the
start of `quick_test`, the call sequence ends with a
`link_local_settings E` restoring that environment, whatever the
outcome of linking `dev_fasttests`, updating the database, or running
the tests. -/
theorem claim_C10 : ∀ (c : Collab) (m : Manager) (fs : FS) (m1 : Manager) (E : Str),
    infer_environment m fs = .ok (m1, E) →
    ∃ tr, (quick_test c m fs).2.2 = tr ++ [.link E] := by
  intro c m fs m1 E hi
  unfold quick_test
  rw [hi]
  dsimp only
  cases hl1 : link_local_settings m1 fs devFasttests with
  | mk r1 fsa =>
    cases r1 with
    | error e1 =>
      dsimp only
      cases hl2 : link_local_settings m1 fsa E with
      | mk r2 fsb =>
        cases r2 with
        | error e2 => exact ⟨[.link devFasttests], rfl⟩
        | ok m3 => exact ⟨[.link devFasttests], rfl⟩
    | ok m2 =>
      dsimp only
      cases hl2 : link_local_settings m2 fsa E with
      | mk r2 fsb =>
        cases r2 with
        | error e2 => exact ⟨_, rfl⟩
        | ok m3 =>
          dsimp only
          cases hd : c.db_update with
          | error ed => exact ⟨_, rfl⟩
          | ok u =>
            dsimp only
            cases ht : c.tests with
            | error et => exact ⟨_, rfl⟩
            | ok u2 => exact ⟨_, rfl⟩

/-- Witness for C10: a database failure during `quick_test` still ends
with the restore link to `"staging"`. -/
theorem claim_C10_witness :
    ∃ tr, (quick_test ⟨false, true, .error .shellCommandError, .ok (), .ok (), 0⟩
        ⟨none, false⟩
        ⟨some ["import local_settings".data],
          .symlink ("local_settings.py.staging".data), false,
          ["staging".data, "dev_fasttests".data], none⟩).2.2 =
      tr ++ [.link "staging".data] :=
  claim_C10 ⟨false, true, .error .shellCommandError, .ok (), .ok (), 0⟩
    ⟨none, false⟩
    ⟨some ["import local_settings".data],
      .symlink ("local_settings.py.staging".data), false,
      ["staging".data, "dev_fasttests".data], none⟩
    ⟨some "staging".data, false⟩ "staging".data (by decide)
